import Mathlib

/-!
Shallow embedding of the falling-block game in `src/tetris_web/script.js`.
The simulation core (board, shape catalog, validity check, merge, line
clearing, rotation, spawn/game-over logic) is translated function by
function; rendering and the keyboard/timer glue are external collaborators
and are not modelled.  The script's sources of randomness (`newPiece`'s
piece index and color) are passed as explicit parameters.  A JavaScript
`TypeError` (indexing into `undefined`, as happens in `isValidMove` and in
the merge loop of `placePiece` when a row coordinate is outside the array)
is modelled by `Except.error ()`.
-/

namespace Tetris

/-- Number of board rows (`const ROWS = 20`). -/
def ROWS : Nat := 20

/-- Number of board columns (`const COLS = 10`). -/
def COLS : Nat := 10

/-- A board cell: the empty marker (`const EMPTY = 0`), a color string
(`placePiece` stores `currentPiece.color`, a string, into occupied cells;
a string is never strictly equal to `0`), or `undef` — the hole JavaScript
leaves at the skipped indices when an element is assigned past the end of
an array.  The script observes a cell only through `cell !== EMPTY` (where
`every` skips holes, i.e. contributes `true`, exactly as `undef ≠ EMPTY`
does) and through `board[newY][newX] === EMPTY` at columns `< COLS` (where
a hole reads as `undefined`, and `undefined === 0` is false, exactly as
`undef = EMPTY` is); so `undef` reproduces a hole's behavior at every read
the script performs. -/
inductive Cell
  | empty
  | color (s : String)
  | undef
deriving DecidableEq

/-- The empty-cell marker (`const EMPTY = 0`). -/
def EMPTY : Cell := Cell.empty

/-- The board: `board` is an array of `ROWS` arrays of `COLS` cells. -/
abbrev Board := List (List Cell)

/-- A shape mask: array of rows of 0/1 values. -/
abbrev Mask := List (List Nat)

/-- One entry of the `PIECES` catalog.  In the source the I piece is stored
as a flat array `[1, 1, 1, 1]` while the other six are arrays of rows;
`newPiece` normalizes the flat form. -/
inductive PieceDef
  | flat (row : List Nat)
  | nested (rows : List (List Nat))
deriving DecidableEq

/-- The seven canonical shapes (`const PIECES = [...]`). -/
def PIECES : List PieceDef :=
  [ .flat [1, 1, 1, 1],
    .nested [[1, 1, 1], [0, 1, 0]],
    .nested [[1, 1], [1, 1]],
    .nested [[1, 1, 0], [0, 1, 1]],
    .nested [[0, 1, 1], [1, 1, 0]],
    .nested [[1, 0, 0], [1, 1, 1]],
    .nested [[0, 0, 1], [1, 1, 1]] ]

/-- Shape normalization from `newPiece`:
`Array.isArray(randomPiece[0]) ? randomPiece : [randomPiece]`. -/
def normalize : PieceDef → Mask
  | .flat row => [row]
  | .nested rows => rows

/-- The k-th canonical mask, as normalized by `newPiece` (the 1×4 I piece
for `k = 0`). -/
def pieceMask (k : Nat) : Mask := normalize (PIECES.getD k (.flat []))

/-- `createBoard()`: a `ROWS × COLS` grid with every cell `EMPTY`. -/
def createBoard : Board := List.replicate ROWS (List.replicate COLS EMPTY)

/-- The fresh row a line clear pushes on top of the board
(`new Array(COLS).fill(EMPTY)`). -/
def emptyRow : List Cell := List.replicate COLS EMPTY

/-- The row-fullness test of `clearLines`:
`board[row].every(cell => cell !== EMPTY)`. -/
def rowFull (r : List Cell) : Bool := r.all (fun c => decide (c ≠ EMPTY))

/-- JavaScript indexing `board[i]` on the row axis: a row when `i` is a
valid index, `none` (= `undefined`) otherwise — in particular for every
negative `i`. -/
def jsRow (b : Board) (i : Int) : Option (List Cell) :=
  if 0 ≤ i then b.get? i.toNat else none

/-- The per-cell test of `isValidMove` for a mask value `v` landing on
column `newX`, row `newY`:
`!value || (newX >= 0 && newX < COLS && newY < ROWS && board[newY][newX] === EMPTY)`.
When the first three conjuncts hold the element access `board[newY][newX]`
is evaluated; if `board[newY]` is `undefined` (any negative `newY`, or a
row index past the end of the array) that access throws a TypeError,
modelled by `Except.error ()`.  Note the source has no `newY >= 0` guard. -/
def cellCheck (b : Board) (newX newY : Int) (v : Nat) : Except Unit Bool :=
  if v = 0 then .ok true
  else if 0 ≤ newX ∧ newX < (COLS : Int) ∧ newY < (ROWS : Int) then
    match jsRow b newY with
    | some row => .ok (decide (row.get? newX.toNat = some EMPTY))
    | none => .error ()
  else .ok false

/-- Inner `row.every((value, dx) => ...)` of `isValidMove`; `x` is the
column `x + dx` of the cell under inspection, realized by incrementing.
`every` short-circuits on the first `false`; a thrown TypeError aborts the
whole check. -/
def everyCellRow (b : Board) (y : Int) : Int → List Nat → Except Unit Bool
  | _, [] => .ok true
  | x, v :: rest =>
    match cellCheck b x y v with
    | .error e => .error e
    | .ok false => .ok false
    | .ok true => everyCellRow b y (x + 1) rest

/-- Outer `piece.shape.every((row, dy) => ...)` of `isValidMove`; `y` is
the board row `y + dy` of the mask row under inspection. -/
def everyRows (b : Board) (x : Int) : Int → Mask → Except Unit Bool
  | _, [] => .ok true
  | y, row :: rest =>
    match everyCellRow b y x row with
    | .error e => .error e
    | .ok false => .ok false
    | .ok true => everyRows b x (y + 1) rest

/-- `isValidMove(x, y, piece)`; `shape` is `piece.shape`. -/
def isValidMove (b : Board) (x y : Int) (shape : Mask) : Except Unit Bool :=
  everyRows b x y shape

/-- Whether an `Except` result is a normal (non-throwing) return. -/
def exOk : Except Unit Bool → Bool
  | .ok _ => true
  | .error _ => false

/-- Element assignment `row[col] = c` inside a row.  For `col` inside
`[0, row.length)` this is an in-place update.  For `col ≥ row.length`
JavaScript lengthens the array to `col + 1`, leaving holes at the skipped
indices `row.length .. col - 1` and `c` at index `col`; the holes are
modelled by `Cell.undef`.  A negative `col` creates a non-index property,
invisible to every element read the script performs, hence a no-op here. -/
def setCol (r : List Cell) (col : Int) (c : Cell) : List Cell :=
  if 0 ≤ col then
    if col.toNat < r.length then r.set col.toNat c
    else r ++ List.replicate (col.toNat - r.length) Cell.undef ++ [c]
  else r

/-- The assignment `board[row][col] = c` of `placePiece`'s merge loop.
When `board[row]` is `undefined` (row outside `[0, board.length)`) the
property write on `undefined` throws a TypeError, modelled by `error`. -/
def writeCell (b : Board) (row col : Int) (c : Cell) : Except Unit Board :=
  if 0 ≤ row ∧ row < (b.length : Int) then
    .ok (b.set row.toNat (setCol (b.getD row.toNat []) col c))
  else .error ()

/-- Inner `row.forEach((value, x) => { if (value) board[...][...] = color })`
of `placePiece`; `x` is the destination column of the cell, realized by
incrementing. -/
def mergeRowGo (c : Cell) (y : Int) : Board → Int → List Nat → Except Unit Board
  | b, _, [] => .ok b
  | b, x, v :: rest =>
    if v ≠ 0 then
      match writeCell b y x c with
      | .error e => .error e
      | .ok b2 => mergeRowGo c y b2 (x + 1) rest
    else mergeRowGo c y b (x + 1) rest

/-- Outer `currentPiece.shape.forEach((row, y) => ...)` of `placePiece`'s
merge; `y` is the destination row of the mask row. -/
def mergeGo (c : Cell) (x : Int) : Board → Int → Mask → Except Unit Board
  | b, _, [] => .ok b
  | b, y, row :: rest =>
    match mergeRowGo c y b x row with
    | .error e => .error e
    | .ok b2 => mergeGo c x b2 (y + 1) rest

/-- The splice-and-unshift pair inside `clearLines`
(`board.splice(row, 1); board.unshift(new Array(COLS).fill(EMPTY))`):
remove row `r` and push a fresh empty row on top, shifting the rows that
were above `r` down by one. -/
def clearRow (b : Board) (r : Nat) : Board := emptyRow :: b.eraseIdx r

/-- The `for (let row = ROWS - 1; row >= 0; row--)` loop of `clearLines`:
`clearLoop b n` still has to inspect indices `n - 1, n - 2, ..., 0`.
After a clear the index is decremented exactly as in the source, so the
row that has just shifted down into the cleared index is not inspected
again. -/
def clearLoop : Board → Nat → Board × Nat
  | b, 0 => (b, 0)
  | b, n + 1 =>
    if rowFull (b.getD n []) then
      let r := clearLoop (clearRow b n) n
      (r.1, r.2 + 1)
    else clearLoop b n

/-- `clearLines()`: the board after the clearing pass together with
`linesCleared`.  (The score update `score += linesCleared * 10` is guarded
by `linesCleared > 0` in the source; adding `0 * 10` is the same.) -/
def clearLines (b : Board) : Board × Nat := clearLoop b ROWS

/-- Number of full rows of a board. -/
def countFull (b : Board) : Nat := (b.filter (fun r => rowFull r)).length

/-- The mutable globals of the script: `board`, `score`, `currentPiece`
(its `shape` and `color`) and `currentX`, `currentY`. -/
structure GameState where
  board : Board
  score : Nat
  shape : Mask
  color : String
  x : Int
  y : Int
deriving DecidableEq

/-- The spawn column of `newPiece`:
`Math.floor(COLS / 2) - Math.floor(shape[0].length / 2)` (floor division
on non-negative numbers is `Nat` division). -/
def spawnX (shape : Mask) : Int :=
  ((COLS / 2 : Nat) : Int) - (((shape.headD []).length / 2 : Nat) : Int)

/-- The shape spawned for catalog index `i`, normalized as in `newPiece`. -/
def spawnShape (i : Fin PIECES.length) : Mask := normalize (PIECES.get i)

/-- `newPiece()` with the two random choices (catalog index and color)
passed explicitly: keeps the given board and score and puts the fresh
piece at the spawn position (`currentY = 0`). -/
def newPiece (b : Board) (sc : Nat) (i : Fin PIECES.length) (c : String) :
    GameState :=
  { board := b, score := sc, shape := spawnShape i, color := c,
    x := spawnX (spawnShape i), y := 0 }

/-- `gameOver()`: the board is rebuilt empty (`board = []; createBoard()`)
and the score reset to 0; the freshly spawned piece and its position are
left in place (the source shows an alert, which is presentation glue). -/
def gameOverReset (g : GameState) : GameState :=
  { g with board := createBoard, score := 0 }

/-- `placePiece()` with the next piece's random choices passed explicitly:
merge the current piece into the board, run `clearLines` (adding
`linesCleared * 10` to the score), spawn the next piece, and if the spawn
position is not valid run `gameOver()`. -/
def placePiece (s : GameState) (i : Fin PIECES.length) (c : String) :
    Except Unit GameState :=
  match mergeGo (Cell.color s.color) s.x s.board s.y s.shape with
  | .error e => .error e
  | .ok merged =>
    let cl := clearLines merged
    let g := newPiece cl.1 (s.score + cl.2 * 10) i c
    match isValidMove g.board g.x g.y g.shape with
    | .error e => .error e
    | .ok true => .ok g
    | .ok false => .ok (gameOverReset g)

/-- `movePiece(dx)`: apply a horizontal move if valid, otherwise leave the
state untouched. -/
def movePiece (s : GameState) (dx : Int) : Except Unit GameState :=
  match isValidMove s.board (s.x + dx) s.y s.shape with
  | .error e => .error e
  | .ok true => .ok { s with x := s.x + dx }
  | .ok false => .ok s

/-- The rotated mask computed by `rotatePiece`:
`shape[0].map((_, i) => shape.map(row => row[i]).reverse())`
(transpose, then reverse each resulting row).  `row[i]` past the end of a
ragged row is `undefined`, which is falsy wherever the script inspects a
mask value; `getD _ 0` models it. -/
def rotate (m : Mask) : Mask :=
  (List.range (m.headD []).length).map
    (fun i => (m.map (fun row => row.getD i 0)).reverse)

/-- `rotatePiece()`: install the rotated mask if it is valid at the
current position, otherwise leave the piece unchanged. -/
def rotatePiece (s : GameState) : Except Unit GameState :=
  match isValidMove s.board s.x s.y (rotate s.shape) with
  | .error e => .error e
  | .ok true => .ok { s with shape := rotate s.shape }
  | .ok false => .ok s

/-- `drop()` (the gravity tick and the soft-drop key): move down one row
if valid, otherwise place the piece.  The random choices for the
`placePiece` branch are passed explicitly. -/
def drop (s : GameState) (i : Fin PIECES.length) (c : String) :
    Except Unit GameState :=
  match isValidMove s.board s.x (s.y + 1) s.shape with
  | .error e => .error e
  | .ok true => .ok { s with y := s.y + 1 }
  | .ok false => placePiece s i c

/-- The board invariant of the spec: `ROWS` rows of `COLS` cells each,
and every cell is the empty marker or a color — never a hole left by an
out-of-range element assignment. -/
def boardWF (b : Board) : Prop :=
  b.length = ROWS ∧ ∀ r ∈ b, r.length = COLS ∧ ∀ c ∈ r, c ≠ Cell.undef

instance : DecidablePred boardWF := fun b => by
  unfold boardWF; infer_instance

instance {ε α : Type} [DecidableEq ε] [DecidableEq α] :
    DecidableEq (Except ε α) := fun a b =>
  match a, b with
  | .error x, .error y =>
    if h : x = y then isTrue (by rw [h])
    else isFalse (fun hh => by cases hh; exact h rfl)
  | .error _, .ok _ => isFalse (fun hh => by cases hh)
  | .ok _, .error _ => isFalse (fun hh => by cases hh)
  | .ok x, .ok y =>
    if h : x = y then isTrue (by rw [h])
    else isFalse (fun hh => by cases hh; exact h rfl)

/-! ### List index bookkeeping for `splice` + `unshift` -/

theorem getD_eraseIdx_lt {α : Type} :
    ∀ (l : List α) (n m : Nat) (d : α), m < n →
      (l.eraseIdx n).getD m d = l.getD m d
  | [], _, _, _, _ => rfl
  | _ :: _, 0, m, _, h => absurd h (Nat.not_lt_zero m)
  | _ :: _, n + 1, 0, _, _ => rfl
  | _ :: t, n + 1, m + 1, d, h => by
    simp only [List.eraseIdx_cons_succ, List.getD_cons_succ]
    exact getD_eraseIdx_lt t n m d (Nat.lt_of_succ_lt_succ h)

theorem getD_eraseIdx_ge {α : Type} :
    ∀ (l : List α) (n m : Nat) (d : α), n ≤ m →
      (l.eraseIdx n).getD m d = l.getD (m + 1) d
  | [], _, _, _, _ => rfl
  | _ :: _, 0, _, _, _ => by
    simp only [List.eraseIdx_cons_zero, List.getD_cons_succ]
  | _ :: _, n + 1, 0, _, h => absurd h (Nat.not_succ_le_zero n)
  | _ :: t, n + 1, m + 1, d, h => by
    simp only [List.eraseIdx_cons_succ, List.getD_cons_succ]
    exact getD_eraseIdx_ge t n m d (Nat.le_of_succ_le_succ h)

theorem take_eraseIdx_of_le {α : Type} :
    ∀ (l : List α) (n m : Nat), m ≤ n → (l.eraseIdx n).take m = l.take m
  | [], _, _, _ => rfl
  | _ :: _, _, 0, _ => rfl
  | _ :: _, 0, m + 1, h => absurd h (Nat.not_succ_le_zero m)
  | a :: t, n + 1, m + 1, h => by
    simp only [List.eraseIdx_cons_succ, List.take_succ_cons]
    rw [take_eraseIdx_of_le t n m (Nat.le_of_succ_le_succ h)]

theorem drop_eraseIdx_succ {α : Type} :
    ∀ (l : List α) (n : Nat) (d : α), n + 1 < l.length →
      (l.eraseIdx (n + 1)).drop n = l.getD n d :: l.drop (n + 2)
  | [], n, _, h => absurd h (by simp)
  | a :: t, 0, d, h => by
    match t, h with
    | b :: t', _ => rfl
  | a :: t, n + 1, d, h => by
    simp only [List.eraseIdx_cons_succ, List.drop_succ_cons, List.getD_cons_succ]
    exact drop_eraseIdx_succ t n d (by simpa using Nat.lt_of_succ_lt_succ h)

theorem take_succ_getD {α : Type} :
    ∀ (l : List α) (n : Nat) (d : α), n < l.length →
      l.take (n + 1) = l.take n ++ [l.getD n d]
  | [], n, _, h => absurd h (by simp)
  | a :: t, 0, _, _ => rfl
  | a :: t, n + 1, d, h => by
    simp only [List.take_succ_cons, List.getD_cons_succ, List.cons_append]
    rw [← take_succ_getD t n d (by simpa using Nat.lt_of_succ_lt_succ h)]

theorem drop_getD_cons {α : Type} (l : List α) (n : Nat) (d : α)
    (h : n < l.length) : l.drop n = l.getD n d :: l.drop (n + 1) := by
  rw [List.getD_eq_getElem l d h]
  exact List.drop_eq_getElem_cons h

theorem length_eraseIdx_of_lt {α : Type} (l : List α) (n : Nat)
    (h : n < l.length) : (l.eraseIdx n).length = l.length - 1 := by
  rw [List.length_eraseIdx, if_pos h]

/-! ### Facts about `rowFull` and `countFull` -/

theorem rowFull_emptyRow : rowFull emptyRow = false := by decide

theorem countFull_append (l₁ l₂ : Board) :
    countFull (l₁ ++ l₂) = countFull l₁ + countFull l₂ := by
  simp [countFull, List.filter_append]

theorem countFull_cons (r : List Cell) (l : Board) :
    countFull (r :: l) = (if rowFull r then 1 else 0) + countFull l := by
  simp only [countFull, List.filter_cons]
  split <;> simp [Nat.add_comm]

theorem countFull_nil : countFull [] = 0 := rfl

/-! ### The validity check: totality for non-negative `y`, and the bounds
carried by a positive answer -/

theorem cellCheck_isOk (b : Board) (newX newY : Int) (v : Nat)
    (hy : 0 ≤ newY) (hR : ROWS ≤ b.length) :
    exOk (cellCheck b newX newY v) = true := by
  unfold cellCheck
  split
  · rfl
  · split
    · rename_i hguard
      have hlt : newY.toNat < b.length := by
        have := hguard.2.2
        simp only [ROWS] at this hR ⊢
        omega
      rw [jsRow, if_pos hy, List.get?_eq_getElem?, List.getElem?_eq_getElem hlt]
      rfl
    · rfl

theorem everyCellRow_isOk (b : Board) (y : Int) (hy : 0 ≤ y)
    (hR : ROWS ≤ b.length) :
    ∀ (r : List Nat) (x : Int), exOk (everyCellRow b y x r) = true
  | [], _ => rfl
  | v :: rest, x => by
    have hcell := cellCheck_isOk b x y v hy hR
    unfold everyCellRow
    match hcc : cellCheck b x y v with
    | .error e => rw [hcc] at hcell; exact absurd hcell (by simp [exOk])
    | .ok false => rfl
    | .ok true => exact everyCellRow_isOk b y hy hR rest (x + 1)

theorem everyRows_isOk (b : Board) (x : Int) (hR : ROWS ≤ b.length) :
    ∀ (m : Mask) (y : Int), 0 ≤ y → exOk (everyRows b x y m) = true
  | [], _, _ => rfl
  | row :: rest, y, hy => by
    have hrow := everyCellRow_isOk b y hy hR row x
    unfold everyRows
    match hrc : everyCellRow b y x row with
    | .error e => rw [hrc] at hrow; exact absurd hrow (by simp [exOk])
    | .ok false => rfl
    | .ok true =>
      exact everyRows_isOk b x hR rest (y + 1) (by omega)

/-- The validity check never throws — i.e. never dereferences `undefined` —
as long as the candidate `y` is non-negative and the board has its `ROWS`
rows.  (Every call the engine makes has `y ≥ 0`.) -/
theorem isValidMove_isOk (b : Board) (x y : Int) (m : Mask)
    (hy : 0 ≤ y) (hR : ROWS ≤ b.length) : exOk (isValidMove b x y m) = true :=
  everyRows_isOk b x hR m y hy

theorem everyCellRow_true_cell (b : Board) (y : Int) :
    ∀ (r : List Nat) (x : Int) (dx : Nat),
      everyCellRow b y x r = .ok true → r.getD dx 0 ≠ 0 →
      0 ≤ x + dx ∧ x + dx < (COLS : Int) ∧ y < (ROWS : Int)
  | [], _, dx, _, hocc => by simp at hocc
  | v :: rest, x, dx, h, hocc => by
    unfold everyCellRow at h
    match hcc : cellCheck b x y v with
    | .error e => rw [hcc] at h; cases h
    | .ok false => rw [hcc] at h; cases h
    | .ok true =>
      rw [hcc] at h
      match dx, hocc with
      | 0, hocc =>
        have hv : v ≠ 0 := by simpa using hocc
        unfold cellCheck at hcc
        rw [if_neg hv] at hcc
        split at hcc
        · rename_i hguard
          exact ⟨by simpa using hguard.1, by simpa using hguard.2.1,
            hguard.2.2⟩
        · cases hcc
      | dx + 1, hocc =>
        have := everyCellRow_true_cell b y rest (x + 1) dx h
          (by simpa using hocc)
        refine ⟨?_, ?_, this.2.2⟩ <;> [skip; skip] <;>
          · have h1 := this.1
            have h2 := this.2.1
            push_cast at h1 h2 ⊢
            omega

theorem everyRows_true_cell (b : Board) (x : Int) :
    ∀ (m : Mask) (y : Int) (dy dx : Nat),
      everyRows b x y m = .ok true → (m.getD dy []).getD dx 0 ≠ 0 →
      0 ≤ x + dx ∧ x + dx < (COLS : Int) ∧ y + dy < (ROWS : Int)
  | [], _, dy, dx, _, hocc => by simp at hocc
  | row :: rest, y, dy, dx, h, hocc => by
    unfold everyRows at h
    match hrc : everyCellRow b y x row with
    | .error e => rw [hrc] at h; cases h
    | .ok false => rw [hrc] at h; cases h
    | .ok true =>
      rw [hrc] at h
      match dy, hocc with
      | 0, hocc =>
        have := everyCellRow_true_cell b y row x dx hrc (by simpa using hocc)
        refine ⟨this.1, this.2.1, ?_⟩
        have := this.2.2
        push_cast
        omega
      | dy + 1, hocc =>
        have := everyRows_true_cell b x rest (y + 1) dy dx h
          (by simpa using hocc)
        refine ⟨this.1, this.2.1, ?_⟩
        have h3 := this.2.2
        push_cast at h3 ⊢
        omega

/-- A positive validity answer bounds every occupied cell of the mask:
its landing column is inside `[0, COLS)` and its landing row is `< ROWS`. -/
theorem isValidMove_true_cell (b : Board) (x y : Int) (m : Mask)
    (dy dx : Nat) (h : isValidMove b x y m = .ok true)
    (hocc : (m.getD dy []).getD dx 0 ≠ 0) :
    0 ≤ x + dx ∧ x + dx < (COLS : Int) ∧ y + dy < (ROWS : Int) :=
  everyRows_true_cell b x m y dy dx h hocc

/-! ### The merge loop and the clearing loop preserve the dimensions -/

theorem writeCell_length (b : Board) (row col : Int) (c : Cell) (b2 : Board)
    (h : writeCell b row col c = .ok b2) : b2.length = b.length := by
  unfold writeCell at h
  split at h
  · cases h; exact List.length_set b row.toNat _
  · cases h

theorem mergeRowGo_length (c : Cell) (y : Int) :
    ∀ (r : List Nat) (b : Board) (x : Int) (b2 : Board),
      mergeRowGo c y b x r = .ok b2 → b2.length = b.length
  | [], b, _, b2, h => by cases h; rfl
  | v :: rest, b, x, b2, h => by
    unfold mergeRowGo at h
    split at h
    · match hw : writeCell b y x c with
      | .error e => rw [hw] at h; cases h
      | .ok bb =>
        rw [hw] at h
        rw [mergeRowGo_length c y rest bb (x + 1) b2 h]
        exact writeCell_length b y x c bb hw
    · exact mergeRowGo_length c y rest b (x + 1) b2 h

theorem mergeGo_length (c : Cell) (x : Int) :
    ∀ (m : Mask) (b : Board) (y : Int) (b2 : Board),
      mergeGo c x b y m = .ok b2 → b2.length = b.length
  | [], b, _, b2, h => by cases h; rfl
  | row :: rest, b, y, b2, h => by
    unfold mergeGo at h
    match hw : mergeRowGo c y b x row with
    | .error e => rw [hw] at h; cases h
    | .ok bb =>
      rw [hw] at h
      rw [mergeGo_length c x rest bb (y + 1) b2 h]
      exact mergeRowGo_length c y row b x bb hw

theorem setCol_WF (r : List Cell) (col : Int) (c : Cell)
    (hcol : 0 ≤ col ∧ col < (r.length : Int)) :
    (setCol r col c).length = r.length ∧
    ∀ c' ∈ setCol r col c, c' ∈ r ∨ c' = c := by
  unfold setCol
  rw [if_pos hcol.1, if_pos (by omega : col.toNat < r.length)]
  exact ⟨List.length_set r col.toNat c,
    fun c' hc' => List.mem_or_eq_of_mem_set hc'⟩

theorem writeCell_WF (b : Board) (row col : Int) (c : Cell) (b2 : Board)
    (h : writeCell b row col c = .ok b2) (hWF : boardWF b)
    (hc : c ≠ Cell.undef) (hcol : 0 ≤ col ∧ col < (COLS : Int)) :
    boardWF b2 := by
  unfold writeCell at h
  split at h
  · rename_i hguard
    cases h
    have hlt : row.toNat < b.length := by omega
    have hrow : b.getD row.toNat [] ∈ b := by
      rw [List.getD_eq_getElem b [] hlt]
      exact List.getElem_mem hlt
    have hrWF := hWF.2 _ hrow
    have hsc := setCol_WF (b.getD row.toNat []) col c
      (by constructor; exacts [hcol.1, by rw [hrWF.1]; exact hcol.2])
    constructor
    · rw [List.length_set]; exact hWF.1
    · intro r hr
      rcases List.mem_or_eq_of_mem_set hr with hmem | heq
      · exact hWF.2 r hmem
      · subst heq
        refine ⟨by rw [hsc.1, hrWF.1], ?_⟩
        intro c' hc'
        rcases hsc.2 c' hc' with hmem | heq
        · exact hrWF.2 c' hmem
        · subst heq; exact hc
  · cases h

theorem mergeRowGo_WF (c : Cell) (y : Int) (hc : c ≠ Cell.undef) :
    ∀ (r : List Nat) (b : Board) (x : Int) (b2 : Board),
      mergeRowGo c y b x r = .ok b2 → boardWF b →
      (∀ dx : Nat, r.getD dx 0 ≠ 0 →
        0 ≤ x + (dx : Int) ∧ x + (dx : Int) < (COLS : Int)) →
      boardWF b2
  | [], b, _, b2, h, hWF, _ => by cases h; exact hWF
  | v :: rest, b, x, b2, h, hWF, hbound => by
    have hbound' : ∀ dx : Nat, rest.getD dx 0 ≠ 0 →
        0 ≤ (x + 1) + (dx : Int) ∧ (x + 1) + (dx : Int) < (COLS : Int) := by
      intro dx hocc
      have := hbound (dx + 1) (by simpa using hocc)
      constructor <;> [skip; skip] <;>
        · have h1 := this.1
          have h2 := this.2
          push_cast at h1 h2 ⊢
          omega
    unfold mergeRowGo at h
    split at h
    · rename_i hv
      have hx := hbound 0 (by simpa using hv)
      match hw : writeCell b y x c with
      | .error e => rw [hw] at h; cases h
      | .ok bb =>
        rw [hw] at h
        refine mergeRowGo_WF c y hc rest bb (x + 1) b2 h ?_ hbound'
        refine writeCell_WF b y x c bb hw hWF hc ?_
        constructor <;>
          · have h1 := hx.1
            have h2 := hx.2
            push_cast at h1 h2 ⊢
            omega
    · exact mergeRowGo_WF c y hc rest b (x + 1) b2 h hWF hbound'

theorem mergeGo_WF (c : Cell) (x : Int) (hc : c ≠ Cell.undef) :
    ∀ (m : Mask) (b : Board) (y : Int) (b2 : Board),
      mergeGo c x b y m = .ok b2 → boardWF b →
      (∀ dy dx : Nat, (m.getD dy []).getD dx 0 ≠ 0 →
        0 ≤ x + (dx : Int) ∧ x + (dx : Int) < (COLS : Int)) →
      boardWF b2
  | [], b, _, b2, h, hWF, _ => by cases h; exact hWF
  | row :: rest, b, y, b2, h, hWF, hbound => by
    unfold mergeGo at h
    match hw : mergeRowGo c y b x row with
    | .error e => rw [hw] at h; cases h
    | .ok bb =>
      rw [hw] at h
      refine mergeGo_WF c x hc rest bb (y + 1) b2 h ?_ ?_
      · exact mergeRowGo_WF c y hc row b x bb hw hWF
          (fun dx hocc => hbound 0 dx (by simpa using hocc))
      · exact fun dy dx hocc => hbound (dy + 1) dx (by simpa using hocc)

theorem clearLoop_length :
    ∀ (n : Nat) (b : Board), n ≤ b.length →
      (clearLoop b n).1.length = b.length
  | 0, _, _ => rfl
  | n + 1, b, h => by
    unfold clearLoop
    split
    · have hlen : (clearRow b n).length = b.length := by
        unfold clearRow
        simp only [List.length_cons, length_eraseIdx_of_lt b n (by omega)]
        omega
      simp only []
      rw [clearLoop_length n (clearRow b n) (by omega), hlen]
    · exact clearLoop_length n b (by omega)

theorem clearLoop_mem :
    ∀ (n : Nat) (b : Board) (r : List Cell), n ≤ b.length →
      r ∈ (clearLoop b n).1 → r ∈ b ∨ r = emptyRow
  | 0, _, _, _, hr => Or.inl hr
  | n + 1, b, r, h, hr => by
    unfold clearLoop at hr
    split at hr
    · have hlen : (clearRow b n).length = b.length := by
        unfold clearRow
        simp only [List.length_cons, length_eraseIdx_of_lt b n (by omega)]
        omega
      rcases clearLoop_mem n (clearRow b n) r (by omega) hr with hmem | heq
      · unfold clearRow at hmem
        rcases List.mem_cons.1 hmem with heq | hmem
        · exact Or.inr heq
        · exact Or.inl ((List.eraseIdx_sublist b n).mem hmem)
      · exact Or.inr heq
    · exact clearLoop_mem n b r (by omega) hr

theorem clearLines_WF (b : Board) (hWF : boardWF b) :
    boardWF (clearLines b).1 := by
  constructor
  · rw [clearLines, clearLoop_length ROWS b (le_of_eq hWF.1.symm), hWF.1]
  · intro r hr
    rcases clearLoop_mem ROWS b r (le_of_eq hWF.1.symm) hr with hmem | heq
    · exact hWF.2 r hmem
    · subst heq; decide

theorem createBoard_WF : boardWF createBoard := by decide

/-! ### Exact description of the clearing pass when no two full rows are
adjacent.  The loop inspects indices `n-1, ..., 0`; after a clear the rows
above the cleared index have shifted down by one while the loop index
still decrements, so the row now occupying the cleared index is skipped.
When the skipped row is never full — in particular when no two full rows
are vertically adjacent — the pass removes exactly the full rows. -/

theorem clearLoop_spec :
    ∀ (n : Nat) (b : Board), n ≤ b.length →
      (∀ i, i < n - 1 →
        ¬(rowFull (b.getD i []) = true ∧ rowFull (b.getD (i + 1) []) = true)) →
      clearLoop b n =
        (List.replicate (countFull (b.take n)) emptyRow ++
          (b.take n).filter (fun r => !rowFull r) ++ b.drop n,
         countFull (b.take n))
  | 0, b, _, _ => by simp [clearLoop, countFull]
  | 1, b, hb, _ => by
    match b, hb with
    | a :: t, _ =>
      unfold clearLoop
      split
      · rename_i hfull
        simp only [List.getD_cons_zero] at hfull
        show (clearRow (a :: t) 0, (clearLoop (clearRow (a :: t) 0) 0).2 + 1) = _
        simp [clearRow, clearLoop, countFull_cons, countFull_nil, hfull,
          List.filter_cons]
      · rename_i hnf
        have hF : rowFull a = false := by
          simp only [List.getD_cons_zero] at hnf
          revert hnf; cases rowFull a <;> simp
        simp [clearLoop, countFull_cons, countFull_nil, hF, List.filter_cons]
  | n + 2, b, hb, hadj => by
    have hnlt : n + 1 < b.length := by omega
    unfold clearLoop
    split
    · rename_i hfull
      show ((clearLoop (clearRow b (n + 1)) (n + 1)).1,
            (clearLoop (clearRow b (n + 1)) (n + 1)).2 + 1) = _
      have hlenb' : (clearRow b (n + 1)).length = b.length := by
        simp only [clearRow, List.length_cons,
          length_eraseIdx_of_lt b (n + 1) hnlt]
        omega
      have hadj' : ∀ i, i < (n + 1) - 1 →
          ¬(rowFull ((clearRow b (n + 1)).getD i []) = true ∧
            rowFull ((clearRow b (n + 1)).getD (i + 1) []) = true) := by
        intro i hi
        match i, hi with
        | 0, _ =>
          simp only [clearRow, List.getD_cons_zero, rowFull_emptyRow]
          simp
        | j + 1, hi =>
          simp only [clearRow, List.getD_cons_succ]
          rw [getD_eraseIdx_lt b (n + 1) j [] (by omega),
            getD_eraseIdx_lt b (n + 1) (j + 1) [] (by omega)]
          exact hadj j (by omega)
      rw [clearLoop_spec (n + 1) (clearRow b (n + 1)) (by omega) hadj']
      have hF1 : (clearRow b (n + 1)).take (n + 1) = emptyRow :: b.take n := by
        simp only [clearRow, List.take_succ_cons]
        rw [take_eraseIdx_of_le b (n + 1) n (by omega)]
      have hF2 : (clearRow b (n + 1)).drop (n + 1) =
          b.getD n [] :: b.drop (n + 2) := by
        simp only [clearRow, List.drop_succ_cons]
        exact drop_eraseIdx_succ b n [] hnlt
      have hfull' : rowFull (b.getD (n + 1) []) = true := hfull
      have hF3 : rowFull (b.getD n []) = false := by
        by_contra hc
        have hc' : rowFull (b.getD n []) = true := by
          revert hc; cases rowFull (b.getD n []) <;> simp
        exact hadj n (by omega) ⟨hc', hfull'⟩
      have hT1 : b.take (n + 1) = b.take n ++ [b.getD n []] :=
        take_succ_getD b n [] (by omega)
      have hT2 : b.take (n + 2) =
          (b.take n ++ [b.getD n []]) ++ [b.getD (n + 1) []] := by
        rw [← hT1]; exact take_succ_getD b (n + 1) [] hnlt
      have hK : countFull (b.take (n + 2)) = countFull (b.take n) + 1 := by
        rw [hT2, countFull_append, countFull_append, countFull_cons,
          countFull_cons, hF3, hfull', countFull_nil]
        simp
      have hFlt : (b.take (n + 2)).filter (fun r => !rowFull r) =
          (b.take n).filter (fun r => !rowFull r) ++ [b.getD n []] := by
        rw [hT2, List.filter_append, List.filter_append, List.filter_cons,
          List.filter_cons, hF3, hfull']
        simp
      rw [Prod.mk.injEq]
      constructor
      · show List.replicate (countFull ((clearRow b (n + 1)).take (n + 1)))
            emptyRow ++
            ((clearRow b (n + 1)).take (n + 1)).filter (fun r => !rowFull r) ++
            (clearRow b (n + 1)).drop (n + 1) = _
        rw [hF1, hF2, hK, hFlt, countFull_cons, rowFull_emptyRow,
          List.filter_cons, rowFull_emptyRow, List.replicate_succ']
        simp [List.append_assoc]
      · show countFull ((clearRow b (n + 1)).take (n + 1)) + 1 = _
        rw [hF1, hK, countFull_cons, rowFull_emptyRow]
        simp
    · rename_i hnf
      have hF : rowFull (b.getD (n + 1) []) = false := by
        revert hnf; cases rowFull (b.getD (n + 1) []) <;> simp
      have hadj' : ∀ i, i < (n + 1) - 1 →
          ¬(rowFull (b.getD i []) = true ∧
            rowFull (b.getD (i + 1) []) = true) := by
        intro i hi; exact hadj i (by omega)
      rw [clearLoop_spec (n + 1) b (by omega) hadj']
      have hT : b.take (n + 2) = b.take (n + 1) ++ [b.getD (n + 1) []] :=
        take_succ_getD b (n + 1) [] hnlt
      have hK : countFull (b.take (n + 2)) = countFull (b.take (n + 1)) := by
        rw [hT, countFull_append, countFull_cons, hF, countFull_nil]
        simp
      have hFlt : (b.take (n + 2)).filter (fun r => !rowFull r) =
          (b.take (n + 1)).filter (fun r => !rowFull r) ++
            [b.getD (n + 1) []] := by
        rw [hT, List.filter_append, List.filter_cons, hF]
        simp
      have hD : b.drop (n + 1) = b.getD (n + 1) [] :: b.drop (n + 2) :=
        drop_getD_cons b (n + 1) [] hnlt
      rw [Prod.mk.injEq]
      constructor
      · rw [hK, hFlt, hD]
        simp [List.append_assoc]
      · rw [hK]

/-- `clearLines` on a full-width board with no two adjacent full rows:
every full row is removed, one fresh empty row per clear is pushed on top,
the surviving rows keep their order, and the reported count is the number
of full rows. -/
theorem clearLines_spec (b : Board) (hlen : b.length = ROWS)
    (hadj : ∀ i, i < ROWS - 1 →
      ¬(rowFull (b.getD i []) = true ∧ rowFull (b.getD (i + 1) []) = true)) :
    clearLines b =
      (List.replicate (countFull b) emptyRow ++
        b.filter (fun r => !rowFull r), countFull b) := by
  have h := clearLoop_spec ROWS b (le_of_eq hlen.symm) hadj
  rw [clearLines, h]
  rw [List.take_of_length_le (le_of_eq hlen), List.drop_of_length_le (le_of_eq hlen)]
  simp

theorem countFull_replicate_emptyRow :
    ∀ k : Nat, countFull (List.replicate k emptyRow) = 0
  | 0 => rfl
  | k + 1 => by
    rw [List.replicate_succ, countFull_cons, rowFull_emptyRow,
      countFull_replicate_emptyRow k]
    simp

theorem countFull_clearResult (k : Nat) (l : Board) :
    countFull (List.replicate k emptyRow ++
      l.filter (fun r => !rowFull r)) = 0 := by
  rw [countFull_append, countFull_replicate_emptyRow]
  simp only [countFull, List.filter_filter]
  simp

/-! ### Concrete fixtures used by the examples below -/

/-- Board builder for the concrete examples: paint cell `(r, c)` with a
color. -/
def bset (b : Board) (r c : Nat) (s : String) : Board :=
  b.set r ((b.getD r []).set c (Cell.color s))

/-- Board builder for the concrete examples: paint columns `0..upto-1` of
row `r`. -/
def fillRow (b : Board) (r upto : Nat) : Board :=
  (List.range upto).foldl (fun bb c => bset bb r c "#aa") b

def exScore : Except Unit GameState → Option Nat
  | .ok g => some g.score
  | .error _ => none

def exBoard : Except Unit GameState → Option Board
  | .ok g => some g.board
  | .error _ => none

/-! ## The claims -/

/-- C9 (confirmed): a freshly created board has `ROWS` rows of `COLS`
cells, every one of them the empty marker, and the row-fullness check is
false on every row of it. -/
theorem claim_C9 :
    createBoard.length = ROWS ∧
    (∀ r ∈ createBoard, r.length = COLS ∧ ∀ c ∈ r, c = EMPTY) ∧
    (∀ i, i < ROWS → rowFull (createBoard.getD i []) = false) := by decide

/-- C3 (confirmed): the rotation computes transpose-then-reverse-each-row,
which is a 90° clockwise rotation — entry `(i, j)` of the rotated mask is
entry `(rows - 1 - j, i)` of the original; applying it four times to any
of the seven canonical masks returns the original mask, the 1×4 I piece
passing through its 4×1 form. -/
theorem claim_C3 (m : Mask) (i j : Nat) (hi : i < (m.headD []).length)
    (hj : j < m.length) :
    ((rotate m).getD i []).getD j 0 =
      (m.getD (m.length - 1 - j) []).getD i 0 ∧
    (∀ k, k < 7 →
      rotate (rotate (rotate (rotate (pieceMask k)))) = pieceMask k) ∧
    rotate (pieceMask 0) = [[1], [1], [1], [1]] ∧
    rotate [[1], [1], [1], [1]] = pieceMask 0 := by
  refine ⟨?_, by decide, by decide, by decide⟩
  have e1 : (rotate m).getD i [] =
      (m.map (fun row => row.getD i 0)).reverse := by
    rw [rotate, List.getD_eq_getElem?_getD, List.getElem?_map,
      List.getElem?_range (by simpa using hi)]
    rfl
  rw [e1]
  have hrl : j < ((m.map (fun row => row.getD i 0)).reverse).length := by
    simpa using hj
  rw [List.getD_eq_getElem ((m.map (fun row => row.getD i 0)).reverse) 0 hrl,
    List.getElem_reverse]
  have hml : m.length - 1 - j < m.length := by omega
  rw [List.getElem_map, List.getD_eq_getElem m [] hml]
  congr 2
  simp

/-- Witness for C3 at the T piece, entry `(0, 0)`. -/
theorem claim_C3_witness :
    (((rotate (pieceMask 1)).getD 0 []).getD 0 0 =
      ((pieceMask 1).getD ((pieceMask 1).length - 1 - 0) []).getD 0 0) ∧
    (∀ k, k < 7 →
      rotate (rotate (rotate (rotate (pieceMask k)))) = pieceMask k) ∧
    rotate (pieceMask 0) = [[1], [1], [1], [1]] ∧
    rotate [[1], [1], [1], [1]] = pieceMask 0 :=
  claim_C3 (pieceMask 1) 0 0 (by decide) (by decide)

/-- C4 (confirmed): clearing row `r` (the splice + unshift of
`clearLines`) keeps the board at `ROWS` rows, puts a fresh all-empty row
at index 0, moves each row that was above `r` down by one position with
contents unchanged, and leaves every row below `r` untouched. -/
theorem claim_C4 (b : Board) (r i : Nat) (hlen : b.length = ROWS)
    (hr : r < ROWS) (hi : i < ROWS) :
    (clearRow b r).length = ROWS ∧
    (clearRow b r).getD 0 [] = emptyRow ∧
    (1 ≤ i → i ≤ r → (clearRow b r).getD i [] = b.getD (i - 1) []) ∧
    (r < i → (clearRow b r).getD i [] = b.getD i []) := by
  refine ⟨?_, rfl, ?_, ?_⟩
  · rw [clearRow, List.length_cons,
      length_eraseIdx_of_lt b r (by omega)]
    omega
  · intro h1 h2
    obtain ⟨j, rfl⟩ : ∃ j, i = j + 1 := ⟨i - 1, by omega⟩
    rw [clearRow, List.getD_cons_succ, getD_eraseIdx_lt b r j [] (by omega)]
    simp
  · intro h1
    obtain ⟨j, rfl⟩ : ∃ j, i = j + 1 := ⟨i - 1, by omega⟩
    rw [clearRow, List.getD_cons_succ, getD_eraseIdx_ge b r j [] (by omega)]

/-- Witness for C4 on the empty board, clearing row 5, inspecting row 3. -/
theorem claim_C4_witness :
    (clearRow createBoard 5).length = ROWS ∧
    (clearRow createBoard 5).getD 0 [] = emptyRow ∧
    (1 ≤ 3 → 3 ≤ 5 → (clearRow createBoard 5).getD 3 [] =
      createBoard.getD (3 - 1) []) ∧
    (5 < 3 → (clearRow createBoard 5).getD 3 [] = createBoard.getD 3 []) :=
  claim_C4 createBoard 5 3 (by decide) (by decide) (by decide)

/-- C7 (confirmed): a horizontal move or a rotation whose validity check
answers `false` is a silent no-op — `movePiece` and `rotatePiece` return
normally with the state (position, mask, board, score) exactly as it was;
in particular a rejected rotation keeps the old mask and no alternative
offsets are tried. -/
theorem claim_C7 (s : GameState) (d : Int)
    (hmv : isValidMove s.board (s.x + d) s.y s.shape = .ok false)
    (hrot : isValidMove s.board s.x s.y (rotate s.shape) = .ok false) :
    movePiece s d = .ok s ∧ rotatePiece s = .ok s := by
  constructor
  · rw [movePiece, hmv]
  · rw [rotatePiece, hrot]

/-- Fixture for the C7 witness: the horizontal I piece at `(6, 18)` on the
empty board.  Moving right would reach column 10; rotating would reach
row 21. -/
def c7s : GameState :=
  { board := createBoard, score := 0, shape := pieceMask 0,
    color := "#ab", x := 6, y := 18 }

/-- Witness for C7. -/
theorem claim_C7_witness :
    movePiece c7s 1 = .ok c7s ∧ rotatePiece c7s = .ok c7s :=
  claim_C7 c7s 1 (by decide) (by decide)

/-- Counterexample for C2: the I piece at candidate position `(0, -1)` on
the empty board has every occupied cell on row `-1` with its column inside
`[0, COLS)`; the claim says the validity check performs no board lookup
for those cells and treats them as open (so it would answer `ok true`
here), but the source has no `newY >= 0` guard: it evaluates
`board[-1][newX]`, an out-of-bounds read of `undefined` that throws. -/
theorem claim_C2_counterexample :
    isValidMove createBoard 0 (-1) (pieceMask 0) = .error () ∧
    (∀ dx, dx < 4 → ((pieceMask 0).getD 0 []).getD dx 0 ≠ 0 ∧
      0 ≤ (0 : Int) + dx ∧ (0 : Int) + dx < (COLS : Int)) ∧
    (-1 : Int) + 0 < 0 := by decide

/-- C2 (corrected): for every candidate position with `y ≥ 0` — which
holds at every call the engine makes, since `currentY` starts at 0 and
only ever grows — no occupied mask cell maps to a row below 0 and the
validity check completes normally, i.e. it never reads outside the
grid's allocated bounds. -/
theorem claim_C2 (b : Board) (x y : Int) (m : Mask)
    (hlen : b.length = ROWS) (hy : 0 ≤ y) :
    exOk (isValidMove b x y m) = true ∧
    (∀ dy dx : Nat, (m.getD dy []).getD dx 0 ≠ 0 → 0 ≤ y + dy) := by
  refine ⟨isValidMove_isOk b x y m hy (le_of_eq hlen.symm), ?_⟩
  intro dy dx _
  omega

/-- Witness for C2: the T piece at the spawn position on the empty board. -/
theorem claim_C2_witness :
    exOk (isValidMove createBoard 4 0 (pieceMask 1)) = true ∧
    (∀ dy dx : Nat, ((pieceMask 1).getD dy []).getD dx 0 ≠ 0 →
      0 ≤ (0 : Int) + dy) :=
  claim_C2 createBoard 4 0 (pieceMask 1) (by decide) (by decide)

/-- Counterexample for C5: the I piece at candidate position `(7, -1)` on
the empty board has an occupied cell (`dx = 3`) mapping to column
`10 = COLS`, outside `[0, COLS)`; the claim says `isValidMove` returns
false, but it throws instead — the cells before it are inspected first,
have their columns in range and row `-1 < ROWS`, so the unguarded lookup
`board[-1][...]` throws before the offending column is ever reached. -/
theorem claim_C5_counterexample :
    isValidMove createBoard 7 (-1) (pieceMask 0) = .error () ∧
    ((pieceMask 0).getD 0 []).getD 3 0 ≠ 0 ∧
    ¬((7 : Int) + 3 < (COLS : Int)) := by decide

/-- C5 (corrected): for every candidate position with `y ≥ 0` — which
holds at every call the engine makes — if any occupied mask cell maps to
a column outside `[0, COLS)` or to a row `≥ ROWS`, `isValidMove` answers
`ok false`; consequently a move request whose target placement has such a
cell (in particular one at column `-1` or column `COLS`) is rejected and
the state, position included, stays unchanged. -/
theorem claim_C5 (s : GameState) (d : Int) (dy dx : Nat)
    (hlen : s.board.length = ROWS) (hy : 0 ≤ s.y)
    (hocc : (s.shape.getD dy []).getD dx 0 ≠ 0)
    (hbad : s.x + d + dx < 0 ∨ (COLS : Int) ≤ s.x + d + dx ∨
      (ROWS : Int) ≤ s.y + dy) :
    isValidMove s.board (s.x + d) s.y s.shape = .ok false ∧
    movePiece s d = .ok s := by
  have hok := isValidMove_isOk s.board (s.x + d) s.y s.shape hy
    (le_of_eq hlen.symm)
  cases hv : isValidMove s.board (s.x + d) s.y s.shape with
  | error e => rw [hv] at hok; simp [exOk] at hok
  | ok v =>
    cases v
    · exact ⟨rfl, by rw [movePiece, hv]⟩
    · exfalso
      have hcell := isValidMove_true_cell s.board (s.x + d) s.y s.shape
        dy dx hv hocc
      rcases hbad with hbad | hbad | hbad <;> omega

/-- Fixture for the C5 witness: the I piece at `(6, 0)` on the empty
board; moving right puts its last cell at column 10. -/
def c5s : GameState :=
  { board := createBoard, score := 0, shape := pieceMask 0,
    color := "#cd", x := 6, y := 0 }

/-- Witness for C5. -/
theorem claim_C5_witness :
    isValidMove c5s.board (c5s.x + 1) c5s.y c5s.shape = .ok false ∧
    movePiece c5s 1 = .ok c5s :=
  claim_C5 c5s 1 0 3 (by decide) (by decide) (by decide) (by decide)

/-- C6 (confirmed): when the freshly spawned piece's position fails the
validity check (it collides with board cells), `placePiece` runs
`gameOver`: the resulting state has an all-empty board, score 0, and the
newly spawned piece in play at its spawn position.  Moreover the game-over
check happens only on respawn: a horizontal move or a rotation never
touches board or score. -/
theorem claim_C6 (s t : GameState) (d : Int) (i : Fin PIECES.length)
    (c : String) (merged : Board)
    (hm : mergeGo (Cell.color s.color) s.x s.board s.y s.shape = .ok merged)
    (hspawn : isValidMove (clearLines merged).1 (spawnX (spawnShape i)) 0
      (spawnShape i) = .ok false) :
    placePiece s i c =
      .ok { board := createBoard, score := 0, shape := spawnShape i,
            color := c, x := spawnX (spawnShape i), y := 0 } ∧
    (movePiece s d = .ok t → t.board = s.board ∧ t.score = s.score) ∧
    (rotatePiece s = .ok t → t.board = s.board ∧ t.score = s.score) := by
  refine ⟨?_, ?_, ?_⟩
  · rw [placePiece, hm]
    simp only [newPiece]
    rw [hspawn]
    rfl
  · intro h
    cases hv : isValidMove s.board (s.x + d) s.y s.shape with
    | error e => rw [movePiece, hv] at h; cases h
    | ok v =>
      rw [movePiece, hv] at h
      cases v
      · cases h; exact ⟨rfl, rfl⟩
      · cases h; exact ⟨rfl, rfl⟩
  · intro h
    cases hv : isValidMove s.board s.x s.y (rotate s.shape) with
    | error e => rw [rotatePiece, hv] at h; cases h
    | ok v =>
      rw [rotatePiece, hv] at h
      cases v
      · cases h; exact ⟨rfl, rfl⟩
      · cases h; exact ⟨rfl, rfl⟩

/-- Fixture for the C6 witness: a board whose only occupied cell is
`(0, 4)`, blocking the T piece's spawn position. -/
def c6board : Board := bset createBoard 0 4 "#11"

/-- Fixture for the C6 witness: the O piece about to be placed at the
bottom-left corner (completing no row). -/
def c6s : GameState :=
  { board := c6board, score := 7, shape := pieceMask 2,
    color := "#22", x := 0, y := 18 }

/-- Fixture for the C6 witness: `c6s`'s board after the O piece merges. -/
def c6merged : Board :=
  bset (bset (bset (bset c6board 18 0 "#22") 18 1 "#22") 19 0 "#22")
    19 1 "#22"

/-- Witness for C6. -/
theorem claim_C6_witness :
    placePiece c6s ⟨1, by decide⟩ "#33" =
      .ok { board := createBoard, score := 0,
            shape := spawnShape ⟨1, by decide⟩, color := "#33",
            x := spawnX (spawnShape ⟨1, by decide⟩), y := 0 } ∧
    (movePiece c6s 1 = .ok c6s → c6s.board = c6s.board ∧
      c6s.score = c6s.score) ∧
    (rotatePiece c6s = .ok c6s → c6s.board = c6s.board ∧
      c6s.score = c6s.score) :=
  claim_C6 c6s c6s 1 ⟨1, by decide⟩ "#33" c6merged (by decide) (by decide)

/-- Whenever `placePiece` returns normally it preserves the board
invariant, provided the piece being locked sits at a position that passed
the validity check — as the current piece does in every reachable state. -/
theorem placePiece_WF (s : GameState) (i : Fin PIECES.length) (c : String)
    (t : GameState) (h : placePiece s i c = .ok t)
    (hWF : boardWF s.board)
    (hval : isValidMove s.board s.x s.y s.shape = .ok true) :
    boardWF t.board := by
  rw [placePiece] at h
  cases hm : mergeGo (Cell.color s.color) s.x s.board s.y s.shape with
  | error e => rw [hm] at h; cases h
  | ok merged =>
    rw [hm] at h
    simp only [newPiece] at h
    have hWFm : boardWF merged :=
      mergeGo_WF (Cell.color s.color) s.x
        (fun hcu => Cell.noConfusion hcu) s.shape s.board s.y merged hm hWF
        (fun dy dx hocc =>
          ⟨(isValidMove_true_cell s.board s.x s.y s.shape dy dx hval hocc).1,
           (isValidMove_true_cell s.board s.x s.y s.shape dy dx
             hval hocc).2.1⟩)
    have hWFc : boardWF (clearLines merged).1 := clearLines_WF merged hWFm
    cases hv : isValidMove (clearLines merged).1 (spawnX (spawnShape i)) 0
        (spawnShape i) with
    | error e => rw [hv] at h; cases h
    | ok v =>
      rw [hv] at h
      cases v
      · cases h; exact createBoard_WF
      · cases h; exact hWFc

/-- Fixture for the C8 counterexample: a well-formed (all-empty) board
but the O piece parked at column 50 — a state no validity check has
sanctioned. -/
def c8xs : GameState :=
  { board := createBoard, score := 0, shape := pieceMask 2,
    color := "#77", x := 50, y := 18 }

/-- Catalog index of the piece spawned in the C8 counterexample. -/
def c8xi : Fin PIECES.length := ⟨2, by decide⟩

/-- Counterexample for C8: from a well-formed board, placing a piece
whose position never passed the validity check (x = 50) completes
normally but lengthens the written rows past `COLS` — the assignments
`board[18][50] = color` etc. extend the 10-wide arrays to 52 entries
with holes — so the resulting board violates the invariant the claim
says every engine operation preserves. -/
theorem claim_C8_counterexample :
    boardWF c8xs.board ∧
    (exBoard (placePiece c8xs c8xi "#78")).map
      (fun bb => decide (boardWF bb)) = some false := by decide

/-- C8 (corrected): after creation, every engine operation — horizontal
move, rotation, gravity drop, piece placement with line clearing, and the
game-over reset — keeps the board at exactly `ROWS` rows of exactly
`COLS` cells, each the empty marker or a color, provided the current
piece's position has passed the validity check, as it has in every
reachable state (pieces only move through validated steps from a
validated spawn, and the game-over reset re-spawns onto an empty board).
Without that precondition a placement from an out-of-range column
lengthens rows past `COLS` — see the counterexample. -/
theorem claim_C8 (s t : GameState) (d : Int) (i : Fin PIECES.length)
    (c : String) (b : Board) (hWF : boardWF s.board) (hb : boardWF b)
    (hval : isValidMove s.board s.x s.y s.shape = .ok true) :
    boardWF createBoard ∧
    (movePiece s d = .ok t → boardWF t.board) ∧
    (rotatePiece s = .ok t → boardWF t.board) ∧
    (drop s i c = .ok t → boardWF t.board) ∧
    (placePiece s i c = .ok t → boardWF t.board) ∧
    boardWF (clearLines b).1 := by
  refine ⟨createBoard_WF, ?_, ?_, ?_,
    fun h => placePiece_WF s i c t h hWF hval, clearLines_WF b hb⟩
  · intro h
    cases hv : isValidMove s.board (s.x + d) s.y s.shape with
    | error e => rw [movePiece, hv] at h; cases h
    | ok v =>
      rw [movePiece, hv] at h
      cases v
      · cases h; exact hWF
      · cases h; exact hWF
  · intro h
    cases hv : isValidMove s.board s.x s.y (rotate s.shape) with
    | error e => rw [rotatePiece, hv] at h; cases h
    | ok v =>
      rw [rotatePiece, hv] at h
      cases v
      · cases h; exact hWF
      · cases h; exact hWF
  · intro h
    cases hv : isValidMove s.board s.x (s.y + 1) s.shape with
    | error e => rw [drop, hv] at h; cases h
    | ok v =>
      rw [drop, hv] at h
      cases v
      · exact placePiece_WF s i c t h hWF hval
      · cases h; exact hWF

/-- Fixture for the C8 witness. -/
def c8s : GameState :=
  { board := createBoard, score := 0, shape := pieceMask 0,
    color := "#ef", x := 3, y := 0 }

/-- Witness for C8. -/
theorem claim_C8_witness :
    boardWF createBoard ∧
    (movePiece c8s 1 = .ok c8s → boardWF c8s.board) ∧
    (rotatePiece c8s = .ok c8s → boardWF c8s.board) ∧
    (drop c8s ⟨0, by decide⟩ "#02" = .ok c8s → boardWF c8s.board) ∧
    (placePiece c8s ⟨0, by decide⟩ "#02" = .ok c8s → boardWF c8s.board) ∧
    boardWF (clearLines createBoard).1 :=
  claim_C8 c8s c8s 1 ⟨0, by decide⟩ "#02" createBoard (by decide) (by decide)
    (by decide)

/-- Fixture for the C1 counterexample: rows 18 and 19 filled in columns
`0..7`, all else empty. -/
def c1xboard : Board := fillRow (fillRow createBoard 18 8) 19 8

/-- Fixture for the C1 counterexample: the O piece about to land at
`(8, 18)`, completing rows 18 and 19 simultaneously. -/
def c1xs : GameState :=
  { board := c1xboard, score := 0, shape := pieceMask 2,
    color := "#bb", x := 8, y := 18 }

/-- Fixture for the C1 counterexample: `c1xboard` after the O piece
merges; rows 18 and 19 are both full. -/
def c1xmerged : Board :=
  bset (bset (bset (bset c1xboard 18 8 "#bb") 18 9 "#bb") 19 8 "#bb")
    19 9 "#bb"

/-- Catalog index of the O piece. -/
def c1xi : Fin PIECES.length := ⟨2, by decide⟩

/-- Counterexample for C1: placing the O piece makes the two adjacent
rows 18 and 19 full simultaneously, yet the score increases by 10 — not
20 — and one full row survives the step: the bottom-up loop decrements
its index after the splice + unshift, so the full row that has just
shifted down into index 19 is never inspected. -/
theorem claim_C1_counterexample :
    mergeGo (Cell.color "#bb") 8 c1xboard 18 (pieceMask 2) = .ok c1xmerged ∧
    rowFull (c1xmerged.getD 18 []) = true ∧
    rowFull (c1xmerged.getD 19 []) = true ∧
    countFull c1xmerged = 2 ∧
    exScore (placePiece c1xs c1xi "#cc") = some 10 ∧
    (exBoard (placePiece c1xs c1xi "#cc")).map countFull = some 1 ∧
    (exBoard (placePiece c1xs c1xi "#cc")).map
      (fun bb => rowFull (bb.getD 19 [])) = some true := by decide

/-- C1 (corrected): when a piece is placed, the score increases by
exactly 10 per row the clearing pass removes; the pass removes every
full row provided no two full rows are vertically adjacent (so two
non-adjacent simultaneous full rows give +20), each clear shifting the
rows above down and pushing a fresh empty row on top.  (With two
vertically adjacent full rows, only the lower one is cleared in the
pass — see the counterexample.) -/
theorem claim_C1 (s : GameState) (i : Fin PIECES.length) (c : String)
    (merged : Board) (g : GameState)
    (hRows : s.board.length = ROWS)
    (hm : mergeGo (Cell.color s.color) s.x s.board s.y s.shape = .ok merged)
    (hadj : ∀ j, j < ROWS - 1 →
      ¬(rowFull (merged.getD j []) = true ∧
        rowFull (merged.getD (j + 1) []) = true))
    (hspawn : isValidMove (clearLines merged).1 (spawnX (spawnShape i)) 0
      (spawnShape i) = .ok true)
    (hres : placePiece s i c = .ok g) :
    g.score = s.score + countFull merged * 10 ∧
    countFull g.board = 0 ∧
    g.board = List.replicate (countFull merged) emptyRow ++
      merged.filter (fun r => !rowFull r) := by
  have hlen : merged.length = ROWS := by
    rw [mergeGo_length (Cell.color s.color) s.x s.shape s.board s.y merged hm]
    exact hRows
  have hcl := clearLines_spec merged hlen hadj
  rw [placePiece, hm] at hres
  simp only [newPiece] at hres
  rw [hspawn] at hres
  cases hres
  refine ⟨?_, ?_, ?_⟩
  · show s.score + (clearLines merged).2 * 10 = _
    rw [hcl]
  · show countFull (clearLines merged).1 = 0
    rw [hcl]
    exact countFull_clearResult _ _
  · show (clearLines merged).1 = _
    rw [hcl]

/-- Fixture for the C1 witness: row 19 filled in columns `0..7`. -/
def c1board : Board := fillRow createBoard 19 8

/-- Fixture for the C1 witness: the O piece about to land at `(8, 18)`,
completing row 19 only. -/
def c1s : GameState :=
  { board := c1board, score := 0, shape := pieceMask 2,
    color := "#dd", x := 8, y := 18 }

/-- Fixture for the C1 witness: `c1board` after the O piece merges. -/
def c1merged : Board :=
  bset (bset (bset (bset c1board 18 8 "#dd") 18 9 "#dd") 19 8 "#dd")
    19 9 "#dd"

/-- Catalog index of the piece spawned in the C1 witness. -/
def c1i : Fin PIECES.length := ⟨2, by decide⟩

/-- The state `placePiece` produces in the C1 witness. -/
def c1g : GameState :=
  newPiece (clearLines c1merged).1 (0 + (clearLines c1merged).2 * 10)
    c1i "#ee"

/-- Witness for C1. -/
theorem claim_C1_witness :
    c1g.score = c1s.score + countFull c1merged * 10 ∧
    countFull c1g.board = 0 ∧
    c1g.board = List.replicate (countFull c1merged) emptyRow ++
      c1merged.filter (fun r => !rowFull r) :=
  claim_C1 c1s c1i "#ee" c1merged c1g (by decide) (by decide) (by decide)
    (by decide) (by decide)

end Tetris
